import Mathlib

/-!
Verification of the clusterdock cluster/node lifecycle engine
(`clusterdock/models.py`) via a shallow embedding in Lean 4.

The embedding translates the pure decision logic of the source:

* `Cluster.__init__` node-group partitioning,
* `Cluster.start` duplicate-hostname guard,
* `Cluster._setup_network` idempotent network creation,
* `Node.start` port and volume resolution,
* `Node.execute` / `Cluster.execute` output demultiplexing,
* `Node.put_file` / `Node.get_file` tar-based file transfer
  (with a faithful model of Python's `str.encode` / `bytes.decode`
  UTF-8 codec).

Python dictionaries are modelled as association lists with Python's
insertion-order update semantics (`dictInsert`): an existing key keeps
its position and has its value replaced; a fresh key is appended.
The external container runtime is modelled by explicit inputs
(attached-container aliases, image-presence oracle, exec output
chunks) and by traces of runtime events where a claim is about
whether runtime calls happen.
-/

namespace Clusterdock

/-- Python `dict` update `d[k] = v`: replace the value in place if the key
is present (keeping its position), otherwise append the pair. -/
def dictInsert {α β : Type} [DecidableEq α] : List (α × β) → α → β → List (α × β)
  | [], k, v => [(k, v)]
  | (k', v') :: rest, k, v =>
    if k' = k then (k, v) :: rest else (k', v') :: dictInsert rest k v

/-- Python `dict` lookup `d[k]` (as an option): value of the first pair
whose key matches. -/
def dlookup {α β : Type} [DecidableEq α] (k : α) : List (α × β) → Option β
  | [] => none
  | (k', v) :: rest => if k' = k then some v else dlookup k rest

theorem dlookup_dictInsert_self {α β : Type} [DecidableEq α]
    (d : List (α × β)) (k : α) (v : β) :
    dlookup k (dictInsert d k v) = some v := by
  induction d with
  | nil => simp [dictInsert, dlookup]
  | cons hd tl ih =>
    obtain ⟨k', v'⟩ := hd
    by_cases h : k' = k
    · simp [dictInsert, dlookup, h]
    · simp [dictInsert, dlookup, h, ih]

theorem dlookup_dictInsert_ne {α β : Type} [DecidableEq α]
    (d : List (α × β)) (k k' : α) (v : β) (h : k' ≠ k) :
    dlookup k' (dictInsert d k v) = dlookup k' d := by
  have hk : ¬k = k' := fun h' => h h'.symm
  induction d with
  | nil => simp [dictInsert, dlookup, hk]
  | cons hd tl ih =>
    obtain ⟨k₀, v₀⟩ := hd
    by_cases h₀ : k₀ = k
    · subst h₀
      simp [dictInsert, dlookup, hk]
    · simp [dictInsert, dlookup, h₀, ih]

/-- Inserting a key absent from the list appends the pair at the end. -/
theorem dictInsert_of_not_mem {α β : Type} [DecidableEq α]
    (d : List (α × β)) (k : α) (v : β) (h : k ∉ d.map Prod.fst) :
    dictInsert d k v = d ++ [(k, v)] := by
  induction d with
  | nil => simp [dictInsert]
  | cons hd tl ih =>
    obtain ⟨k', v'⟩ := hd
    simp only [List.map_cons, List.mem_cons] at h
    push_neg at h
    simp [dictInsert, Ne.symm h.1, ih h.2]

/-! ### Nodes and node groups (`Cluster.__init__`, models.py lines 72-84) -/

/-- Declared identity of a `Node` (the fields `Cluster.__init__` and
`Cluster.start` consult: `hostname` and `group`). -/
structure Node where
  hostname : String
  group : String
deriving DecidableEq, Repr

/-- The mutation `self.node_groups[node.group].nodes.append(node)`:
append the node to the list of the entry keyed by its group (the first
such entry; keys of a Python dict are unique). -/
def appendNodeAt : List (String × List Node) → String → Node →
    List (String × List Node)
  | [], _, _ => []
  | (g', l) :: rest, g, node =>
    if g' = g then (g', l ++ [node]) :: rest
    else (g', l) :: appendNodeAt rest g node

/-- One step of the `Cluster.__init__` grouping loop: if the node's group
already has a `NodeGroup`, append the node to that group's list, else
create a new entry `(group, [node])` at the end (Python dict insertion). -/
def addNodeToGroups (groups : List (String × List Node)) (node : Node) :
    List (String × List Node) :=
  if (dlookup node.group groups).isSome then
    appendNodeAt groups node.group node
  else
    groups ++ [(node.group, [node])]

/-- The `node_groups` mapping built by `Cluster.__init__`: fold the grouping
step over the declared nodes in order, starting from the empty dict. -/
def nodeGroups (nodes : List Node) : List (String × List Node) :=
  nodes.foldl addNodeToGroups []

/-- One step of first-seen dedup: record `g` at the end unless seen. -/
def seenStep {α : Type} [DecidableEq α] (ks : List α) (g : α) : List α :=
  if g ∈ ks then ks else ks ++ [g]

/-- First-seen order of a list's elements (the insertion order of the keys
of a Python dict populated by successive writes). -/
def firstSeen {α : Type} [DecidableEq α] (l : List α) : List α :=
  l.foldl seenStep []

/-! ### Cluster.start duplicate-hostname guard (models.py lines 103-124) -/

/-- Error raised by the guard in `Cluster.start`. -/
inductive StartError where
  | duplicateHostnames (duplicates : List String)
deriving DecidableEq, Repr

/-- Observable runtime action of `Cluster.start` after the guard. -/
inductive Event where
  | nodeStart (hostname : String)
deriving DecidableEq, Repr

/-- The alias `Cluster.start` collects for each container attached to the
network: `nested_get(attrs, [..., 'Aliases', 0])`, i.e. the first declared
alias, or `None` when the container declares no alias. -/
def collectedAliases (attached : List (List String)) : List (Option String) :=
  attached.map List.head?

/-- The intersection `set(containers_attached_to_network) & set(node
hostnames)` computed by `Cluster.start` (as the list of collected aliases
that match some node's hostname; `None` entries never match a hostname). -/
def duplicateAliases (attached : List (List String)) (nodes : List Node) :
    List String :=
  (collectedAliases attached).filterMap fun a? =>
    a?.bind fun a => if nodes.any fun n => n.hostname = a then some a else none

/-- `Cluster.start`, given the aliases of the containers already attached to
the network: when the network has attached containers and the collected
aliases intersect the incoming hostnames, raise `DuplicateHostnamesError`
before starting any node; otherwise run `Node.start` for every node in
declaration order.  The second component is the trace of node starts. -/
def clusterStart (attached : List (List String)) (nodes : List Node) :
    Except StartError Unit × List Event :=
  if attached.length ≠ 0 ∧ duplicateAliases attached nodes ≠ [] then
    (Except.error (StartError.duplicateHostnames (duplicateAliases attached nodes)), [])
  else
    (Except.ok (), nodes.map fun n => Event.nodeStart n.hostname)

/-! ### Cluster._setup_network (models.py lines 146-161) -/

/-- Outcome of the runtime call `client.networks.create(...)`: success with
a handle, a `docker.errors.APIError` carrying its explanation string, or
any other exception (not caught by `_setup_network`). -/
inductive CreateNetworkResult where
  | ok (handle : Nat)
  | apiError (explanation : String)
  | otherError (description : String)
deriving DecidableEq, Repr

/-- Exception escaping `_setup_network`. -/
inductive SetupError where
  | api (explanation : String)
  | other (description : String)
deriving DecidableEq, Repr

/-- `Cluster._setup_network`: try to create the network; on an `APIError`
whose explanation is exactly `network with name {name} already exists`,
fall back to `client.networks.get(name)` (the `existing` oracle); any
other failure propagates unchanged. -/
def setup_network (name : String) (createResult : CreateNetworkResult)
    (existing : String → Nat) : Except SetupError Nat :=
  match createResult with
  | CreateNetworkResult.ok h => Except.ok h
  | CreateNetworkResult.apiError expl =>
    if expl = "network with name " ++ name ++ " already exists" then
      Except.ok (existing name)
    else
      Except.error (SetupError.api expl)
  | CreateNetworkResult.otherError d => Except.error (SetupError.other d)

/-! ### Node.start port resolution (models.py lines 343-365) -/

/-- One element of a `Node`'s declared `ports` list: a bare integer, a
mapping of host port to container port, or a value of any other Python
type (identified by its type name, as used in the error message). -/
inductive PortEntry where
  | int (n : Nat)
  | dict (items : List (Nat × Nat))
  | other (typeName : String)
deriving DecidableEq, Repr

/-- The port data `Node.start` assembles: the `ports` list passed to
container creation and the `port_bindings` dict for the host config
(container port mapped to host port, `none` meaning host-assigned). -/
structure PortConfig where
  ports : List Nat
  port_bindings : List (Nat × Option Nat)
deriving DecidableEq, Repr

/-- One iteration of the `for port in self.ports` loop of `Node.start`:
a dict contributes, for each item, the container port to `ports` and an
explicit host-port binding; an integer contributes the port with binding
`None`; anything else raises `TypeError`. -/
def portStep (cfg : PortConfig) : PortEntry → Except String PortConfig
  | PortEntry.dict items => Except.ok (items.foldl (fun c hc =>
      { ports := c.ports ++ [hc.2],
        port_bindings := dictInsert c.port_bindings hc.2 (some hc.1) }) cfg)
  | PortEntry.int n => Except.ok
      { ports := cfg.ports ++ [n],
        port_bindings := dictInsert cfg.port_bindings n none }
  | PortEntry.other t =>
      Except.error ("Saw port of type " ++ t ++ " (must be dict or int).")

/-- The port loop of `Node.start` from a given accumulated state. -/
def resolvePortsAux (cfg : PortConfig) : List PortEntry → Except String PortConfig
  | [] => Except.ok cfg
  | e :: rest =>
    match portStep cfg e with
    | Except.ok cfg' => resolvePortsAux cfg' rest
    | Except.error msg => Except.error msg

/-- The full port loop of `Node.start`, starting from empty `ports` and
`port_bindings`. -/
def resolvePorts (entries : List PortEntry) : Except String PortConfig :=
  resolvePortsAux ⟨[], []⟩ entries

/-- Port entries the loop accepts (integers and dicts). -/
def portEntryIsTyped : PortEntry → Bool
  | PortEntry.other _ => false
  | _ => true

/-! ### Node.start volume resolution (models.py lines 291-341) -/

/-- One element of a `Node`'s declared `volumes` list: a list of Docker
volumes to create, a dict of bind mounts (host path to container path),
a string naming a volumes-from image, or a value of any other type. -/
inductive VolumeEntry where
  | list (names : List String)
  | dict (mounts : List (String × String))
  | str (image : String)
  | other (typeName : String)
deriving DecidableEq, Repr

/-- Calls `Node.start` makes against the container runtime while
resolving the `volumes` list. -/
inductive RtEvent where
  | inspectImage (image : String)
  | pullImage (image : String)
  | createContainer (image : String)
deriving DecidableEq, Repr

/-- Volume data `Node.start` assembles: `binds` (bind mounts, host path
to container path, always mode `rw`), `volumes` (container paths), and
`volumes_from` (disposable containers created from volumes-from images,
identified here by their image). -/
structure VolConfig where
  binds : List (String × String)
  volumes : List String
  volumes_from : List String
deriving DecidableEq, Repr

/-- The `for volume in self.volumes` loop of `Node.start`.  `present`
models whether `client.api.inspect_image` finds the image locally
(when `pull_images` is false, a missing image is inspected and then
pulled); every string entry additionally creates a disposable container.
The second component is the trace of runtime calls made before the loop
finished or raised; an entry of unsupported type raises `TypeError`. -/
def resolveVolumes (pullImages : Bool) (present : String → Bool) :
    List VolumeEntry → VolConfig → Except String VolConfig × List RtEvent
  | [], cfg => (Except.ok cfg, [])
  | VolumeEntry.list names :: rest, cfg =>
    resolveVolumes pullImages present rest
      { cfg with volumes := cfg.volumes ++ names }
  | VolumeEntry.dict mounts :: rest, cfg =>
    resolveVolumes pullImages present rest
      (mounts.foldl (fun c m =>
        { c with binds := dictInsert c.binds m.1 m.2,
                 volumes := c.volumes ++ [m.2] }) cfg)
  | VolumeEntry.str image :: rest, cfg =>
    let evs :=
      (if pullImages then [RtEvent.pullImage image]
       else if present image then [RtEvent.inspectImage image]
       else [RtEvent.inspectImage image, RtEvent.pullImage image]) ++
      [RtEvent.createContainer image]
    let r := resolveVolumes pullImages present rest
      { cfg with volumes_from := cfg.volumes_from ++ [image] }
    (r.1, evs ++ r.2)
  | VolumeEntry.other t :: _, _ =>
    (Except.error ("Saw volume of type " ++ t ++ " (must be dict or str)."), [])

/-- Volume entries that never touch the runtime (lists and dicts). -/
def staticVolumeEntry : VolumeEntry → Bool
  | VolumeEntry.list _ => true
  | VolumeEntry.dict _ => true
  | _ => false

/-! ### Node.execute / Cluster.execute (models.py lines 126-140, 478-517) -/

/-- The namedtuple `ExecuteSession` returned by `Node.execute`. -/
structure ExecuteResult where
  exit_code : Int
  output : String
  stdout : String
  stderr : String
deriving DecidableEq, Repr

/-- The three chunk-list accumulators of the `Node.execute` stream loop. -/
structure ExecAcc where
  output : List String
  stdout : List String
  stderr : List String
deriving DecidableEq, Repr

/-- One iteration of the `for response_chunk in ... exec_start` loop: a
non-empty stdout part is appended to `output` and `stdout`, then a
non-empty stderr part to `output` and `stderr` (Python truthiness makes
`None` and empty chunks indistinguishable, so a chunk part is modelled
as a string, empty meaning absent).  When `quiet` is false a debug line
is also logged; the second component collects the log. -/
def execStep (quiet : Bool) (acc : ExecAcc × List String) (chunk : String × String) :
    ExecAcc × List String :=
  let logs := if quiet then acc.2 else acc.2 ++ ["Got response link: " ++ chunk.1 ++ chunk.2]
  let a₁ :=
    if chunk.1 ≠ "" then
      { acc.1 with output := acc.1.output ++ [chunk.1], stdout := acc.1.stdout ++ [chunk.1] }
    else acc.1
  let a₂ :=
    if chunk.2 ≠ "" then
      { a₁ with output := a₁.output ++ [chunk.2], stderr := a₁.stderr ++ [chunk.2] }
    else a₁
  (a₂, logs)

/-- `Node.execute`, given the runtime's demultiplexed output chunks (each
a stdout part and a stderr part, in arrival order) and the exit code the
runtime reports for the finished process: joins the accumulated chunk
lists into the result namedtuple.  The second component is the log. -/
def nodeExecute (chunks : List (String × String)) (exitCode : Int) (quiet : Bool) :
    ExecuteResult × List String :=
  let r := chunks.foldl (execStep quiet) (⟨[], [], []⟩, [])
  ({ exit_code := exitCode, output := String.join r.1.output,
     stdout := String.join r.1.stdout, stderr := String.join r.1.stderr }, r.2)

/-- A started node as `Cluster.execute` sees it: its `fqdn` plus the
behaviour of its container for the broadcast command (output chunks and
exit code). -/
structure StartedNode where
  fqdn : String
  chunks : List (String × String)
  exit_code : Int
deriving DecidableEq, Repr

/-- `Cluster.execute` (and the textually identical `NodeGroup.execute`):
`OrderedDict((node.fqdn, node.execute(command)) for node in nodes)` —
successive dict insertion keyed by FQDN, in node declaration order. -/
def clusterExecute (nodes : List StartedNode) (quiet : Bool) :
    List (String × ExecuteResult) :=
  nodes.foldl
    (fun d n => dictInsert d n.fqdn (nodeExecute n.chunks n.exit_code quiet).1) []

/-! ### UTF-8 codec and file transfer (models.py lines 519-555)

`put_file` stores `contents.encode()` for `str` contents and the raw
bytes otherwise; `get_file` reads the bytes back and calls `.decode()`,
Python's strict UTF-8 decoder, which fails on bytes that are not valid
UTF-8.  Text is modelled as a list of Unicode code points and bytes as
a list of naturals below 256. -/

/-- UTF-8 encoding of one code point (as produced by `str.encode`). -/
def utf8EncodeChar (c : Nat) : List Nat :=
  if c < 128 then [c]
  else if c < 2048 then [192 + c / 64, 128 + c % 64]
  else if c < 65536 then [224 + c / 4096, 128 + c / 64 % 64, 128 + c % 64]
  else [240 + c / 262144, 128 + c / 4096 % 64, 128 + c / 64 % 64, 128 + c % 64]

/-- UTF-8 encoding of a sequence of code points (`str.encode`). -/
def utf8Encode (s : List Nat) : List Nat :=
  (s.map utf8EncodeChar).flatten

/-- A Unicode scalar value: a code point that `str.encode` accepts
(surrogates are rejected by Python's UTF-8 codec). -/
def ScalarValue (c : Nat) : Prop :=
  c < 55296 ∨ (57344 ≤ c ∧ c < 1114112)

instance (c : Nat) : Decidable (ScalarValue c) := by
  unfold ScalarValue
  infer_instance

/-- One character step of Python's strict UTF-8 decoder: decode the first
code point of the byte list, returning it together with the remaining
bytes; `none` models `UnicodeDecodeError` at this position.  Continuation
bytes must lie in `[128, 192)`; overlong encodings, surrogates, code
points above `0x10FFFF`, and invalid leading bytes are rejected. -/
def utf8DecodeChar1 : List Nat → Option (Nat × List Nat)
  | [] => none
  | b0 :: rest =>
    if b0 < 128 then some (b0, rest)
    else if b0 < 194 then none
    else if b0 < 224 then
      match rest with
      | b1 :: rest1 =>
        if 128 ≤ b1 ∧ b1 < 192 then
          some ((b0 - 192) * 64 + (b1 - 128), rest1)
        else none
      | [] => none
    else if b0 < 240 then
      match rest with
      | b1 :: b2 :: rest2 =>
        if 128 ≤ b1 ∧ b1 < 192 ∧ 128 ≤ b2 ∧ b2 < 192 then
          if (b0 - 224) * 4096 + (b1 - 128) * 64 + (b2 - 128) < 2048 ∨
              (55296 ≤ (b0 - 224) * 4096 + (b1 - 128) * 64 + (b2 - 128) ∧
               (b0 - 224) * 4096 + (b1 - 128) * 64 + (b2 - 128) < 57344) then
            none
          else
            some ((b0 - 224) * 4096 + (b1 - 128) * 64 + (b2 - 128), rest2)
        else none
      | _ => none
    else if b0 < 245 then
      match rest with
      | b1 :: b2 :: b3 :: rest3 =>
        if 128 ≤ b1 ∧ b1 < 192 ∧ 128 ≤ b2 ∧ b2 < 192 ∧
            128 ≤ b3 ∧ b3 < 192 then
          if (b0 - 240) * 262144 + (b1 - 128) * 4096 + (b2 - 128) * 64 +
                (b3 - 128) < 65536 ∨
              1114112 ≤ (b0 - 240) * 262144 + (b1 - 128) * 4096 +
                (b2 - 128) * 64 + (b3 - 128) then
            none
          else
            some ((b0 - 240) * 262144 + (b1 - 128) * 4096 + (b2 - 128) * 64 +
              (b3 - 128), rest3)
        else none
      | _ => none
    else none

/-- The decoding loop, with fuel for termination: each step consumes at
least one byte, so any fuel of at least the byte count realises the
decoder's semantics. -/
def utf8DecodeAux : Nat → List Nat → Option (List Nat)
  | _, [] => some []
  | fuel + 1, b0 :: bs =>
    match utf8DecodeChar1 (b0 :: bs) with
    | some (c, rest) => (utf8DecodeAux fuel rest).map (c :: ·)
    | none => none
  | 0, _ :: _ => none

/-- Python's strict UTF-8 decoder (`bytes.decode`): `none` models
`UnicodeDecodeError`. -/
def utf8Decode (b : List Nat) : Option (List Nat) :=
  utf8DecodeAux b.length b

/-- `put_file` contents: Python `str` (code points) or `bytes`. -/
inductive FileContents where
  | text (codepoints : List Nat)
  | binary (bytes : List Nat)
deriving DecidableEq, Repr

/-- The byte payload `put_file` writes into the tar archive:
`contents.encode() if isinstance(contents, str) else contents`. -/
def putFileBytes : FileContents → List Nat
  | FileContents.text s => utf8Encode s
  | FileContents.binary b => b

/-- `Node.put_file(path, contents)`: the container filesystem (a dict
from path to stored bytes; the tar archive transfer of the runtime is
byte-exact) gains the encoded payload at `path`. -/
def putFile (fs : List (String × List Nat)) (path : String)
    (contents : FileContents) : List (String × List Nat) :=
  dictInsert fs path (putFileBytes contents)

/-- `Node.get_file(path)`: fetch the bytes stored at `path` (outer `none`
is the runtime's path-not-found failure) and decode them as UTF-8 text
(inner `none` is `UnicodeDecodeError`). -/
def getFile (fs : List (String × List Nat)) (path : String) :
    Option (Option (List Nat)) :=
  (dlookup path fs).map utf8Decode

end Clusterdock

namespace Clusterdock

/-! ### Claim theorems (first batch) -/

/-- C2: network setup is idempotent — creation succeeding returns the new
handle; an `APIError` reporting that a network with this name already
exists makes `_setup_network` fetch and return the existing network handle
instead of raising; any other `APIError` explanation, and any non-APIError
failure, propagates unchanged. -/
theorem setup_network_idempotent (name : String) (existing : String → Nat)
    (h : Nat) (expl d : String)
    (hne : expl ≠ "network with name " ++ name ++ " already exists") :
    setup_network name (CreateNetworkResult.ok h) existing = Except.ok h ∧
    setup_network name
        (CreateNetworkResult.apiError
          ("network with name " ++ name ++ " already exists")) existing =
      Except.ok (existing name) ∧
    setup_network name (CreateNetworkResult.apiError expl) existing =
      Except.error (SetupError.api expl) ∧
    setup_network name (CreateNetworkResult.otherError d) existing =
      Except.error (SetupError.other d) := by
  refine ⟨rfl, ?_, ?_, rfl⟩
  · simp [setup_network]
  · simp [setup_network, hne]

/-- Witness for C2 at a concrete network name and error explanation. -/
theorem setup_network_idempotent_witness :
    setup_network "testnet" (CreateNetworkResult.ok 7) (fun _ => 3) =
      Except.ok 7 ∧
    setup_network "testnet"
        (CreateNetworkResult.apiError
          ("network with name " ++ "testnet" ++ " already exists"))
        (fun _ => 3) = Except.ok 3 ∧
    setup_network "testnet" (CreateNetworkResult.apiError "boom") (fun _ => 3) =
      Except.error (SetupError.api "boom") ∧
    setup_network "testnet" (CreateNetworkResult.otherError "conn") (fun _ => 3) =
      Except.error (SetupError.other "conn") :=
  setup_network_idempotent "testnet" (fun _ => 3) 7 "boom" "conn" (by decide)

/-- C1: starting a cluster on a network that already has attached
containers whose collected network aliases intersect the incoming node
hostnames fails with `DuplicateHostnamesError`, and the trace of node
starts is empty — no node's container is created. -/
theorem cluster_start_duplicate_guard (attached : List (List String))
    (nodes : List Node) (hne : attached ≠ [])
    (hdup : ∃ a ∈ (collectedAliases attached).filterMap id,
      ∃ n ∈ nodes, n.hostname = a) :
    (clusterStart attached nodes).1 =
      Except.error (StartError.duplicateHostnames (duplicateAliases attached nodes)) ∧
    (clusterStart attached nodes).2 = [] := by
  obtain ⟨a, ha, n, hn, hhost⟩ := hdup
  have hmem : a ∈ duplicateAliases attached nodes := by
    rw [List.mem_filterMap] at ha
    obtain ⟨a?, ha?, hsome⟩ := ha
    have ha' : a? = some a := by
      cases a? with
      | none => simp at hsome
      | some b => simpa using hsome
    subst ha'
    rw [duplicateAliases, List.mem_filterMap]
    refine ⟨some a, ha?, ?_⟩
    have hany : ∃ x ∈ nodes, x.hostname = a := ⟨n, hn, hhost⟩
    simp [hany]
  have hcond : attached.length ≠ 0 ∧ duplicateAliases attached nodes ≠ [] := by
    refine ⟨?_, List.ne_nil_of_mem hmem⟩
    simpa [List.length_eq_zero] using hne
  rw [clusterStart, if_pos hcond]
  exact ⟨rfl, rfl⟩

/-- Witness for C1: a network with one attached container aliased `node-1`
and an incoming node with hostname `node-1`. -/
theorem cluster_start_duplicate_guard_witness :
    (clusterStart [["node-1"]] [⟨"node-1", "primary"⟩]).1 =
      Except.error
        (StartError.duplicateHostnames
          (duplicateAliases [["node-1"]] [⟨"node-1", "primary"⟩])) ∧
    (clusterStart [["node-1"]] [⟨"node-1", "primary"⟩]).2 = [] :=
  cluster_start_duplicate_guard [["node-1"]] [⟨"node-1", "primary"⟩]
    (by decide) ⟨"node-1", by decide, ⟨"node-1", "primary"⟩, by decide, rfl⟩

/-- C9: when the target network has no attached containers, `Cluster.start`
performs no duplicate-hostname check at all: every node proceeds to
container creation, in declaration order — in particular (second conjunct)
two nodes of the same cluster declared with the same hostname are not
detected as duplicates and both start. -/
theorem cluster_start_no_guard_on_empty_network (nodes : List Node) :
    clusterStart [] nodes =
      (Except.ok (), nodes.map fun n => Event.nodeStart n.hostname) ∧
    clusterStart [] [⟨"dup", "g"⟩, ⟨"dup", "g"⟩] =
      (Except.ok (), [Event.nodeStart "dup", Event.nodeStart "dup"]) := by
  constructor
  · have hno : ¬(([] : List (List String)).length ≠ 0 ∧
        duplicateAliases [] nodes ≠ []) := fun hc => hc.1 rfl
    rw [clusterStart, if_neg hno]
  · rfl

/-! ### Helper lemmas for the node-grouping fold -/

theorem dlookup_isSome_iff {α β : Type} [DecidableEq α] (k : α) (d : List (α × β)) :
    (dlookup k d).isSome = true ↔ k ∈ d.map Prod.fst := by
  induction d with
  | nil => simp [dlookup]
  | cons hd tl ih =>
    obtain ⟨k', v'⟩ := hd
    by_cases h : k' = k
    · simp [dlookup, h]
    · simp [dlookup, h, ih, Ne.symm h]

theorem dlookup_append {α β : Type} [DecidableEq α] (d₁ d₂ : List (α × β)) (k : α) :
    dlookup k (d₁ ++ d₂) =
      match dlookup k d₁ with
      | some v => some v
      | none => dlookup k d₂ := by
  induction d₁ with
  | nil => simp [dlookup]
  | cons hd tl ih =>
    obtain ⟨k', v'⟩ := hd
    by_cases h : k' = k <;> simp [dlookup, h, ih]

theorem dlookup_cons {α β : Type} [DecidableEq α] (k k' : α) (v : β)
    (d : List (α × β)) :
    dlookup k' ((k, v) :: d) = if k = k' then some v else dlookup k' d := rfl

theorem dlookup_appendNodeAt (acc : List (String × List Node)) (g₀ : String)
    (node : Node) (g : String) :
    dlookup g (appendNodeAt acc g₀ node) =
      if g = g₀ then (dlookup g acc).map (· ++ [node]) else dlookup g acc := by
  induction acc with
  | nil => by_cases h : g = g₀ <;> simp [appendNodeAt, dlookup, h]
  | cons hd tl ih =>
    obtain ⟨k, l⟩ := hd
    rw [appendNodeAt]
    by_cases hk : k = g₀
    · rw [if_pos hk]
      by_cases hkg : k = g
      · have hgg : g = g₀ := hkg.symm.trans hk
        rw [dlookup_cons, if_pos hkg, if_pos hgg, dlookup_cons, if_pos hkg]
        rfl
      · have hgg : ¬g = g₀ := fun h => hkg (hk.trans h.symm)
        rw [dlookup_cons, if_neg hkg, if_neg hgg, dlookup_cons, if_neg hkg]
    · rw [if_neg hk]
      by_cases hkg : k = g
      · have hgg : ¬g = g₀ := fun h => hk (hkg.trans h)
        rw [dlookup_cons, if_pos hkg, if_neg hgg, dlookup_cons, if_pos hkg]
      · rw [dlookup_cons, if_neg hkg, ih, dlookup_cons, if_neg hkg]

theorem keys_appendNodeAt (acc : List (String × List Node)) (g₀ : String)
    (node : Node) :
    (appendNodeAt acc g₀ node).map Prod.fst = acc.map Prod.fst := by
  induction acc with
  | nil => rfl
  | cons hd tl ih =>
    obtain ⟨k, l⟩ := hd
    rw [appendNodeAt]
    by_cases hk : k = g₀
    · rw [if_pos hk]
      simp
    · rw [if_neg hk]
      simp [ih]

theorem dlookup_nodeGroupsFrom (rest : List Node) :
    ∀ (acc : List (String × List Node)) (g : String),
    dlookup g (rest.foldl addNodeToGroups acc) =
      match dlookup g acc with
      | some l => some (l ++ rest.filter fun n => n.group = g)
      | none =>
        if rest.any fun n => n.group = g then
          some (rest.filter fun n => n.group = g)
        else none := by
  induction rest with
  | nil =>
    intro acc g
    cases h : dlookup g acc <;> simp [h]
  | cons node rest ih =>
    intro acc g
    rw [List.foldl_cons, ih]
    rw [addNodeToGroups]
    by_cases hs : (dlookup node.group acc).isSome = true
    · rw [if_pos hs, dlookup_appendNodeAt]
      by_cases hg : g = node.group
      · subst hg
        obtain ⟨l₀, hl₀⟩ := Option.isSome_iff_exists.mp hs
        rw [if_pos rfl, hl₀, List.filter_cons_of_pos (by simp)]
        simp
      · have hne : node.group ≠ g := fun h => hg h.symm
        rw [if_neg hg,
          List.filter_cons_of_neg (by simpa using hne), List.any_cons]
        have hdf : decide (node.group = g) = false := by simpa using hne
        rw [hdf, Bool.false_or]
    · rw [if_neg hs, dlookup_append]
      have hnone : dlookup node.group acc = none := by
        cases h : dlookup node.group acc with
        | none => rfl
        | some v => rw [h] at hs; exact absurd rfl hs
      by_cases hg : g = node.group
      · subst hg
        rw [hnone]
        simp [dlookup]
      · have hne : node.group ≠ g := fun h => hg h.symm
        have hd1 : dlookup g [(node.group, [node])] = none := by
          rw [dlookup_cons, if_neg hne]
          rfl
        rw [List.filter_cons_of_neg (by simpa using hne), List.any_cons]
        have hdf : decide (node.group = g) = false := by simpa using hne
        rw [hdf, Bool.false_or]
        cases h : dlookup g acc <;> simp [h, hd1]

theorem keys_nodeGroupsFrom (rest : List Node) :
    ∀ acc : List (String × List Node),
    (rest.foldl addNodeToGroups acc).map Prod.fst =
      (rest.map Node.group).foldl seenStep (acc.map Prod.fst) := by
  induction rest with
  | nil => intro acc; rfl
  | cons node rest ih =>
    intro acc
    rw [List.foldl_cons, ih, List.map_cons, List.foldl_cons]
    congr 1
    rw [addNodeToGroups, seenStep]
    by_cases hs : (dlookup node.group acc).isSome = true
    · rw [if_pos hs, if_pos ((dlookup_isSome_iff _ _).mp hs)]
      rw [keys_appendNodeAt]
    · rw [if_neg hs, if_neg (fun hmem => hs ((dlookup_isSome_iff _ _).mpr hmem))]
      simp

theorem mem_foldl_seenStep {α : Type} [DecidableEq α] (l : List α) :
    ∀ (acc : List α) (x : α), x ∈ l.foldl seenStep acc ↔ x ∈ acc ∨ x ∈ l := by
  induction l with
  | nil => simp
  | cons g l ih =>
    intro acc x
    rw [List.foldl_cons, ih]
    by_cases h : g ∈ acc
    · rw [seenStep, if_pos h]
      simp only [List.mem_cons]
      constructor
      · rintro (hx | hx)
        · exact Or.inl hx
        · exact Or.inr (Or.inr hx)
      · rintro (hx | hx | hx)
        · exact Or.inl hx
        · subst hx
          exact Or.inl h
        · exact Or.inr hx
    · rw [seenStep, if_neg h]
      simp only [List.mem_append, List.mem_singleton, List.mem_cons]
      tauto

theorem nodup_foldl_seenStep {α : Type} [DecidableEq α] (l : List α) :
    ∀ acc : List α, acc.Nodup → (l.foldl seenStep acc).Nodup := by
  induction l with
  | nil => intro acc h; exact h
  | cons g l ih =>
    intro acc h
    rw [List.foldl_cons]
    apply ih
    rw [seenStep]
    by_cases hg : g ∈ acc
    · rwa [if_pos hg]
    · rw [if_neg hg]
      refine List.Nodup.append h (List.nodup_singleton g) ?_
      intro x hx hx'
      rw [List.mem_singleton] at hx'
      subst hx'
      exact hg hx

theorem dlookup_of_mem_nodupKeys {α β : Type} [DecidableEq α]
    (d : List (α × β)) (hnd : (d.map Prod.fst).Nodup) (kv : α × β)
    (hmem : kv ∈ d) : dlookup kv.1 d = some kv.2 := by
  induction d with
  | nil => simp at hmem
  | cons hd tl ih =>
    obtain ⟨k', v'⟩ := hd
    rw [List.map_cons, List.nodup_cons] at hnd
    rcases List.mem_cons.mp hmem with h | h
    · subst h
      simp [dlookup]
    · have hmf : kv.1 ∈ tl.map Prod.fst := List.mem_map.mpr ⟨kv, h, rfl⟩
      have hne : ¬k' = kv.1 := by
        intro he
        rw [← he] at hmf
        exact hnd.1 hmf
      rw [dlookup, if_neg hne]
      exact ih hnd.2 h

/-- C7: for nodes with distinct (group, hostname) pairs, `Cluster.__init__`
partitions the nodes into `node_groups`: every group's member list is
exactly the declaration-order sublist of nodes declaring that group; the
keys of `node_groups` appear in first-seen group order; a `NodeGroup`
exists for exactly the declared groups; and every node appears in exactly
one group — the one keyed by its declared group, whose key occurs once,
and it appears exactly once in that group's list. -/
theorem cluster_init_grouping (nodes : List Node)
    (hdistinct : (nodes.map fun n => (n.group, n.hostname)).Nodup) :
    (∀ g l, dlookup g (nodeGroups nodes) = some l →
        l = nodes.filter fun n => n.group = g) ∧
    (nodeGroups nodes).map Prod.fst = firstSeen (nodes.map Node.group) ∧
    (∀ g, (dlookup g (nodeGroups nodes)).isSome = true ↔
        g ∈ nodes.map Node.group) ∧
    ∀ node ∈ nodes,
      (∀ gl ∈ nodeGroups nodes, (node ∈ gl.2 ↔ gl.1 = node.group)) ∧
      ((nodeGroups nodes).map Prod.fst).count node.group = 1 ∧
      ∃ l, dlookup node.group (nodeGroups nodes) = some l ∧ l.count node = 1 := by
  have hlu : ∀ g, dlookup g (nodeGroups nodes) =
      if nodes.any fun n => n.group = g then
        some (nodes.filter fun n => n.group = g)
      else none := by
    intro g
    rw [nodeGroups, dlookup_nodeGroupsFrom]
    rfl
  have hkeys : (nodeGroups nodes).map Prod.fst = firstSeen (nodes.map Node.group) := by
    rw [nodeGroups, keys_nodeGroupsFrom]
    rfl
  have hkeysnodup : ((nodeGroups nodes).map Prod.fst).Nodup := by
    rw [hkeys, firstSeen]
    exact nodup_foldl_seenStep _ [] List.nodup_nil
  have hkeyiff : ∀ g, (dlookup g (nodeGroups nodes)).isSome = true ↔
      g ∈ nodes.map Node.group := by
    intro g
    rw [hlu g]
    constructor
    · intro hs
      by_cases hany : (nodes.any fun n => n.group = g) = true
      · rw [List.any_eq_true] at hany
        obtain ⟨n, hn, hgn⟩ := hany
        simp only [decide_eq_true_eq] at hgn
        exact List.mem_map.mpr ⟨n, hn, hgn⟩
      · rw [if_neg hany] at hs
        exact absurd hs (by simp)
    · intro hmem
      obtain ⟨n, hn, hgn⟩ := List.mem_map.mp hmem
      have hany : (nodes.any fun n => n.group = g) = true :=
        List.any_eq_true.mpr ⟨n, hn, by simp [hgn]⟩
      rw [if_pos hany]
      rfl
  refine ⟨?_, hkeys, hkeyiff, ?_⟩
  · intro g l h
    rw [hlu] at h
    split at h
    · exact (Option.some.injEq _ _ ▸ h).symm
    · exact absurd h (by simp)
  · intro node hnode
    have hnodup : nodes.Nodup := List.Nodup.of_map _ hdistinct
    have hany : (nodes.any fun n => n.group = node.group) = true :=
      List.any_eq_true.mpr ⟨node, hnode, by simp⟩
    have hlu' : dlookup node.group (nodeGroups nodes) =
        some (nodes.filter fun n => n.group = node.group) := by
      rw [hlu, if_pos hany]
    refine ⟨?_, ?_, ?_⟩
    · intro gl hgl
      have hgl' := dlookup_of_mem_nodupKeys _ hkeysnodup gl hgl
      rw [hlu gl.1] at hgl'
      split at hgl'
      · have hcontent : gl.2 = nodes.filter fun n => n.group = gl.1 :=
          (Option.some.injEq _ _ ▸ hgl').symm
        rw [hcontent]
        constructor
        · intro hmem
          have h2 := List.of_mem_filter hmem
          simp at h2
          exact h2.symm
        · intro heq
          exact List.mem_filter.mpr ⟨hnode, by simp [heq]⟩
      · exact absurd hgl' (by simp)
    · apply List.count_eq_one_of_mem hkeysnodup
      rw [hkeys, firstSeen, mem_foldl_seenStep]
      exact Or.inr (List.mem_map.mpr ⟨node, hnode, rfl⟩)
    · refine ⟨_, hlu', ?_⟩
      rw [List.count_filter (by simp)]
      exact List.count_eq_one_of_mem hnodup hnode

/-- Witness for C7 at a concrete three-node, two-group cluster: the key
of the first node's group occurs exactly once among the node-group keys. -/
theorem cluster_init_grouping_witness :
    ((nodeGroups [⟨"n1", "g1"⟩, ⟨"n2", "g2"⟩, ⟨"n3", "g1"⟩]).map
        Prod.fst).count "g1" = 1 :=
  ((cluster_init_grouping [⟨"n1", "g1"⟩, ⟨"n2", "g2"⟩, ⟨"n3", "g1"⟩]
      (by decide)).2.2.2 ⟨"n1", "g1"⟩ (by decide)).2.1

/-! ### Port-resolution theorems -/

theorem resolvePortsAux_error_of_other (entries : List PortEntry) :
    ∀ (cfg : PortConfig) (t : String), PortEntry.other t ∈ entries →
      ∃ msg, resolvePortsAux cfg entries = Except.error msg := by
  induction entries with
  | nil => intro cfg t h; simp at h
  | cons e rest ih =>
    intro cfg t h
    rcases List.mem_cons.mp h with he | he
    · subst he
      exact ⟨_, rfl⟩
    · cases e with
      | int n => exact ih _ t he
      | dict items => exact ih _ t he
      | other t' => exact ⟨_, rfl⟩

theorem resolvePortsAux_error_typed (pre : List PortEntry) :
    ∀ (cfg : PortConfig) (t : String) (post : List PortEntry),
    (∀ e ∈ pre, portEntryIsTyped e = true) →
    resolvePortsAux cfg (pre ++ PortEntry.other t :: post) =
      Except.error ("Saw port of type " ++ t ++ " (must be dict or int).") := by
  induction pre with
  | nil => intro cfg t post _; rfl
  | cons e pre ih =>
    intro cfg t post htyped
    have he := htyped e (List.mem_cons_self e pre)
    have hrest : ∀ e' ∈ pre, portEntryIsTyped e' = true :=
      fun e' h' => htyped e' (List.mem_cons_of_mem _ h')
    cases e with
    | int n => exact ih _ t post hrest
    | dict items => exact ih _ t post hrest
    | other t' => simp [portEntryIsTyped] at he

/-- C5: in `Node.start` port resolution, a bare integer entry `n` appends
container port `n` to the exposed `ports` list with a host-chosen (`none`)
binding; a single-key mapping `(h, c)` appends container port `c` with an
explicit binding of host port `h`; and a list containing an entry of any
other type makes the resolution raise `TypeError` (with the source's
error message when the entries before it are integers or dicts). -/
theorem node_start_port_resolution :
    (∀ (cfg : PortConfig) (n : Nat), portStep cfg (PortEntry.int n) =
      Except.ok { ports := cfg.ports ++ [n],
                  port_bindings := dictInsert cfg.port_bindings n none }) ∧
    (∀ (cfg : PortConfig) (h c : Nat), portStep cfg (PortEntry.dict [(h, c)]) =
      Except.ok { ports := cfg.ports ++ [c],
                  port_bindings := dictInsert cfg.port_bindings c (some h) }) ∧
    (∀ (entries : List PortEntry) (t : String), PortEntry.other t ∈ entries →
      ∃ msg, resolvePorts entries = Except.error msg) ∧
    ∀ (pre : List PortEntry) (t : String) (post : List PortEntry),
      (∀ e ∈ pre, portEntryIsTyped e = true) →
      resolvePorts (pre ++ PortEntry.other t :: post) =
        Except.error ("Saw port of type " ++ t ++ " (must be dict or int).") := by
  refine ⟨fun cfg n => rfl, fun cfg h c => rfl, ?_, ?_⟩
  · intro entries t h
    exact resolvePortsAux_error_of_other entries ⟨[], []⟩ t h
  · intro pre t post htyped
    exact resolvePortsAux_error_typed pre ⟨[], []⟩ t post htyped

/-- Witness for C5: a bare `8080` entry from the empty state, and a ports
list whose second entry is a string failing with the `TypeError` message. -/
theorem node_start_port_resolution_witness :
    portStep ⟨[], []⟩ (PortEntry.int 8080) =
      Except.ok { ports := [8080], port_bindings := [(8080, none)] } ∧
    resolvePorts ([PortEntry.int 22] ++ PortEntry.other "str" :: []) =
      Except.error ("Saw port of type " ++ "str" ++ " (must be dict or int).") :=
  ⟨node_start_port_resolution.1 ⟨[], []⟩ 8080,
   node_start_port_resolution.2.2.2 [PortEntry.int 22] "str" [] (by decide)⟩

/-- C10: two port entries resolving to the same container port append that
port twice to the exposed list, while in `port_bindings` (a dict keyed by
container port) the later host port overwrites the earlier one: concretely
`[{9000: 8080}, {9001: 8080}]` yields `ports = [8080, 8080]` and
`port_bindings = {8080: 9001}`, and in general a second insertion at the
same container port replaces the binding looked up for that port. -/
theorem node_start_port_overwrite :
    resolvePorts [PortEntry.dict [(9000, 8080)], PortEntry.dict [(9001, 8080)]] =
      Except.ok { ports := [8080, 8080], port_bindings := [(8080, some 9001)] } ∧
    (∀ (cfg : PortConfig) (h h' c : Nat),
      resolvePortsAux cfg [PortEntry.dict [(h, c)], PortEntry.dict [(h', c)]] =
        Except.ok { ports := cfg.ports ++ [c, c],
                    port_bindings := dictInsert
                      (dictInsert cfg.port_bindings c (some h)) c (some h') }) ∧
    ∀ (d : List (Nat × Option Nat)) (h h' c : Nat),
      dlookup c (dictInsert (dictInsert d c (some h)) c (some h')) =
        some (some h') := by
  refine ⟨rfl, ?_, ?_⟩
  · intro cfg h h' c
    simp [resolvePortsAux, portStep]
  · intro d h h' c
    exact dlookup_dictInsert_self _ _ _

/-! ### Volume-resolution theorems -/

theorem resolveVolumes_error_of_other (pullImages : Bool)
    (present : String → Bool) (entries : List VolumeEntry) :
    ∀ (cfg : VolConfig) (t : String), VolumeEntry.other t ∈ entries →
      ∃ msg, (resolveVolumes pullImages present entries cfg).1 =
        Except.error msg := by
  induction entries with
  | nil => intro cfg t h; simp at h
  | cons e rest ih =>
    intro cfg t h
    rcases List.mem_cons.mp h with he | he
    · subst he
      exact ⟨_, rfl⟩
    · cases e with
      | list names => exact ih _ t he
      | dict mounts => exact ih _ t he
      | str image =>
        obtain ⟨msg, hmsg⟩ := ih _ t he
        exact ⟨msg, hmsg⟩
      | other t' => exact ⟨_, rfl⟩

theorem resolveVolumes_error_static (pullImages : Bool)
    (present : String → Bool) (pre : List VolumeEntry) :
    ∀ (cfg : VolConfig) (t : String) (post : List VolumeEntry),
    (∀ e ∈ pre, staticVolumeEntry e = true) →
    resolveVolumes pullImages present (pre ++ VolumeEntry.other t :: post) cfg =
      (Except.error ("Saw volume of type " ++ t ++ " (must be dict or str)."),
       []) := by
  induction pre with
  | nil => intro cfg t post _; rfl
  | cons e pre ih =>
    intro cfg t post hstatic
    have he := hstatic e (List.mem_cons_self e pre)
    have hrest : ∀ e' ∈ pre, staticVolumeEntry e' = true :=
      fun e' h' => hstatic e' (List.mem_cons_of_mem _ h')
    cases e with
    | list names => exact ih _ t post hrest
    | dict mounts => exact ih _ t post hrest
    | str image => simp [staticVolumeEntry] at he
    | other t' => simp [staticVolumeEntry] at he

/-- C6 (amended): a volume entry that is none of list, mapping, or string
makes `Node.start` volume resolution raise `TypeError`; when every earlier
volume entry is a list or a mapping, the error is raised with an empty
runtime-call trace — before any runtime call.  (A string entry earlier in
the list does trigger runtime calls first; see the counterexample.) -/
theorem node_start_bad_volume (pullImages : Bool) (present : String → Bool) :
    (∀ (entries : List VolumeEntry) (cfg : VolConfig) (t : String),
      VolumeEntry.other t ∈ entries →
      ∃ msg, (resolveVolumes pullImages present entries cfg).1 =
        Except.error msg) ∧
    ∀ (pre : List VolumeEntry) (t : String) (post : List VolumeEntry)
      (cfg : VolConfig),
      (∀ e ∈ pre, staticVolumeEntry e = true) →
      resolveVolumes pullImages present (pre ++ VolumeEntry.other t :: post) cfg =
        (Except.error ("Saw volume of type " ++ t ++ " (must be dict or str)."),
         []) := by
  refine ⟨?_, ?_⟩
  · intro entries cfg t h
    exact resolveVolumes_error_of_other pullImages present entries cfg t h
  · intro pre t post cfg hstatic
    exact resolveVolumes_error_static pullImages present pre cfg t post hstatic

/-- Witness for C6 at a concrete volumes list whose first two entries are
a list and a bind-mount dict and whose third is an integer. -/
theorem node_start_bad_volume_witness :
    resolveVolumes false (fun _ => true)
        ([VolumeEntry.list ["vol1"], VolumeEntry.dict [("/var/www", "/var/www")]] ++
          VolumeEntry.other "int" :: []) ⟨[], [], []⟩ =
      (Except.error ("Saw volume of type " ++ "int" ++ " (must be dict or str)."),
       []) :=
  (node_start_bad_volume false (fun _ => true)).2
    [VolumeEntry.list ["vol1"], VolumeEntry.dict [("/var/www", "/var/www")]]
    "int" [] ⟨[], [], []⟩ (by decide)

/-- C6 counterexample to the claim as stated: with volumes
`['my_volumes_image', 42]` the malformed entry still raises `TypeError`,
but only after the volumes-from string entry has caused runtime calls
(image inspect and disposable-container creation) — the error is not
raised before any runtime call is made. -/
theorem node_start_bad_volume_counterexample :
    (resolveVolumes false (fun _ => true)
        [VolumeEntry.str "my_volumes_image", VolumeEntry.other "int"]
        ⟨[], [], []⟩).1 =
      Except.error "Saw volume of type int (must be dict or str)." ∧
    (resolveVolumes false (fun _ => true)
        [VolumeEntry.str "my_volumes_image", VolumeEntry.other "int"]
        ⟨[], [], []⟩).2 =
      [RtEvent.inspectImage "my_volumes_image",
       RtEvent.createContainer "my_volumes_image"] ∧
    [RtEvent.inspectImage "my_volumes_image",
     RtEvent.createContainer "my_volumes_image"] ≠ ([] : List RtEvent) :=
  ⟨rfl, rfl, by decide⟩

/-! ### Command-executor theorems -/

theorem sjoin_cons (a : String) (l : List String) :
    String.join (a :: l) = a ++ String.join l := by
  apply String.ext
  simp [String.join_eq]

theorem sjoin_append (l₁ l₂ : List String) :
    String.join (l₁ ++ l₂) = String.join l₁ ++ String.join l₂ := by
  apply String.ext
  simp [String.join_eq]

theorem sappend_empty (x : String) : x ++ "" = x := by
  apply String.ext
  simp

theorem sjoin_opt (x : String) :
    String.join (if x ≠ "" then [x] else []) = x := by
  by_cases h : x = ""
  · rw [if_neg (by simp [h]), h]
    rfl
  · rw [if_pos h, sjoin_cons]
    rw [show String.join [] = "" from rfl, sappend_empty]

theorem execStep_fst (q : Bool) (acc : ExecAcc × List String)
    (chunk : String × String) :
    (execStep q acc chunk).1 =
      { output := acc.1.output ++
          ((if chunk.1 ≠ "" then [chunk.1] else []) ++
           (if chunk.2 ≠ "" then [chunk.2] else [])),
        stdout := acc.1.stdout ++ (if chunk.1 ≠ "" then [chunk.1] else []),
        stderr := acc.1.stderr ++ (if chunk.2 ≠ "" then [chunk.2] else []) } := by
  obtain ⟨⟨o, s, e⟩, logs⟩ := acc
  obtain ⟨c1, c2⟩ := chunk
  by_cases h1 : c1 = "" <;> by_cases h2 : c2 = "" <;> simp [execStep, h1, h2]

theorem execFold_fst (chunks : List (String × String)) :
    ∀ (q : Bool) (a : ExecAcc) (logs : List String),
    (chunks.foldl (execStep q) (a, logs)).1 =
      { output := a.output ++ (chunks.map fun ch =>
          (if ch.1 ≠ "" then [ch.1] else []) ++
          (if ch.2 ≠ "" then [ch.2] else [])).flatten,
        stdout := a.stdout ++ (chunks.map fun ch =>
          if ch.1 ≠ "" then [ch.1] else []).flatten,
        stderr := a.stderr ++ (chunks.map fun ch =>
          if ch.2 ≠ "" then [ch.2] else []).flatten } := by
  induction chunks with
  | nil =>
    intro q a logs
    simp
  | cons ch chunks ih =>
    intro q a logs
    rw [List.foldl_cons,
      show execStep q (a, logs) ch =
        ((execStep q (a, logs) ch).1, (execStep q (a, logs) ch).2) from rfl,
      ih, execStep_fst]
    simp [List.append_assoc]

theorem sjoin_optPair (chunks : List (String × String)) :
    String.join ((chunks.map fun ch =>
        (if ch.1 ≠ "" then [ch.1] else []) ++
        (if ch.2 ≠ "" then [ch.2] else [])).flatten) =
      String.join (chunks.map fun ch => ch.1 ++ ch.2) := by
  induction chunks with
  | nil => rfl
  | cons ch chunks ih =>
    simp only [List.map_cons, List.flatten_cons]
    rw [sjoin_append, sjoin_append, sjoin_opt, sjoin_opt, ih, sjoin_cons]

theorem sjoin_optSingle (l : List String) :
    String.join ((l.map fun x => if x ≠ "" then [x] else []).flatten) =
      String.join l := by
  induction l with
  | nil => rfl
  | cons x l ih =>
    simp only [List.map_cons, List.flatten_cons]
    rw [sjoin_append, sjoin_opt, ih, sjoin_cons]

theorem nodeExecute_fields (chunks : List (String × String)) (ec : Int)
    (q : Bool) :
    (nodeExecute chunks ec q).1.exit_code = ec ∧
    (nodeExecute chunks ec q).1.output =
      String.join (chunks.map fun ch => ch.1 ++ ch.2) ∧
    (nodeExecute chunks ec q).1.stdout = String.join (chunks.map Prod.fst) ∧
    (nodeExecute chunks ec q).1.stderr = String.join (chunks.map Prod.snd) := by
  have h1 := sjoin_optPair chunks
  have h2 := sjoin_optSingle (chunks.map Prod.fst)
  have h3 := sjoin_optSingle (chunks.map Prod.snd)
  rw [List.map_map] at h2 h3
  simp only [Function.comp_def] at h2 h3
  refine ⟨rfl, ?_, ?_, ?_⟩ <;>
    simp only [nodeExecute, execFold_fst, List.nil_append]
  · exact h1
  · exact h2
  · exact h3

/-- C8: `quiet` affects logging only: for every command output stream and
exit code, the `ExecuteResult` returned by `Node.execute` is identical
whatever the value of `quiet` — output capture is unaffected. -/
theorem node_execute_quiet_only_logging (chunks : List (String × String))
    (ec : Int) (q q' : Bool) :
    (nodeExecute chunks ec q).1 = (nodeExecute chunks ec q').1 := by
  simp only [nodeExecute]
  rw [execFold_fst, execFold_fst]

theorem foldl_dictInsert_fresh {α β γ : Type} [DecidableEq α] (f : γ → α)
    (gv : γ → β) (items : List γ) :
    ∀ d : List (α × β), (∀ x ∈ items, f x ∉ d.map Prod.fst) →
    (items.map f).Nodup →
    items.foldl (fun d x => dictInsert d (f x) (gv x)) d =
      d ++ items.map fun x => (f x, gv x) := by
  induction items with
  | nil => intro d _ _; simp
  | cons x items ih =>
    intro d hfresh hnodup
    rw [List.map_cons, List.nodup_cons] at hnodup
    rw [List.foldl_cons,
      dictInsert_of_not_mem _ _ _ (hfresh x (List.mem_cons_self _ _)), ih]
    · simp
    · intro y hy
      rw [List.map_append, List.map_cons]
      simp only [List.mem_append, List.map_nil, List.mem_cons,
        List.not_mem_nil, or_false]
      rintro (hmem | heq)
      · exact hfresh y (List.mem_cons_of_mem _ hy) hmem
      · exact hnodup.1 (heq ▸ List.mem_map.mpr ⟨y, hy, rfl⟩)
    · exact hnodup.2

/-- C3 (amended): for every cluster whose started nodes have pairwise
distinct FQDNs, `Cluster.execute` (and the identical `NodeGroup.execute`)
returns exactly one entry per node, keyed by that node's FQDN, in node
declaration order, each carrying that node's `ExecuteResult`; and every
node's `ExecuteResult` has that node's exit code, a `stdout` that is the
concatenation of the stdout chunks, a `stderr` that is the concatenation
of the stderr chunks, and an `output` that interleaves the two streams in
arrival order. -/
theorem cluster_execute_broadcast (nodes : List StartedNode) (q : Bool)
    (hnodup : (nodes.map StartedNode.fqdn).Nodup) :
    clusterExecute nodes q =
      (nodes.map fun n => (n.fqdn, (nodeExecute n.chunks n.exit_code q).1)) ∧
    (clusterExecute nodes q).length = nodes.length ∧
    (clusterExecute nodes q).map Prod.fst = nodes.map StartedNode.fqdn ∧
    ∀ n ∈ nodes,
      (nodeExecute n.chunks n.exit_code q).1.exit_code = n.exit_code ∧
      (nodeExecute n.chunks n.exit_code q).1.output =
        String.join (n.chunks.map fun ch => ch.1 ++ ch.2) ∧
      (nodeExecute n.chunks n.exit_code q).1.stdout =
        String.join (n.chunks.map Prod.fst) ∧
      (nodeExecute n.chunks n.exit_code q).1.stderr =
        String.join (n.chunks.map Prod.snd) := by
  have hmain : clusterExecute nodes q =
      nodes.map fun n => (n.fqdn, (nodeExecute n.chunks n.exit_code q).1) := by
    rw [clusterExecute, foldl_dictInsert_fresh StartedNode.fqdn
      (fun n => (nodeExecute n.chunks n.exit_code q).1) nodes []
      (by intro y _ h; simp at h) hnodup]
    rfl
  refine ⟨hmain, ?_, ?_, ?_⟩
  · rw [hmain, List.length_map]
  · rw [hmain, List.map_map]
    apply List.map_congr_left
    intro n _
    rfl
  · intro n _
    exact nodeExecute_fields n.chunks n.exit_code q

/-- Witness for C3 at a concrete two-node cluster: a node emitting a
stdout chunk and another emitting a stderr chunk, with distinct FQDNs. -/
theorem cluster_execute_broadcast_witness :
    clusterExecute
        [⟨"node-1.cluster", [("out1\n", "err1\n")], 0⟩,
         ⟨"node-2.cluster", [("", "err2\n")], 1⟩] false =
      [("node-1.cluster", (nodeExecute [("out1\n", "err1\n")] 0 false).1),
       ("node-2.cluster", (nodeExecute [("", "err2\n")] 1 false).1)] :=
  (cluster_execute_broadcast
    [⟨"node-1.cluster", [("out1\n", "err1\n")], 0⟩,
     ⟨"node-2.cluster", [("", "err2\n")], 1⟩] false (by decide)).1

/-- C3 counterexample to the claim as stated: a cluster of two started
nodes with the same FQDN yields a single `OrderedDict` entry, not two —
the later node's result overwrites the earlier entry. -/
theorem cluster_execute_dup_fqdn_counterexample :
    (clusterExecute [⟨"node-1.cluster", [], 0⟩, ⟨"node-1.cluster", [], 1⟩]
        false).length = 1 ∧ (1 : Nat) ≠ 2 :=
  ⟨rfl, by decide⟩

/-! ### UTF-8 codec theorems -/

theorem utf8DecodeChar1_encodeChar (c : Nat) (hsv : ScalarValue c)
    (tail : List Nat) :
    utf8DecodeChar1 (utf8EncodeChar c ++ tail) = some (c, tail) := by
  have hc : c < 55296 ∨ (57344 ≤ c ∧ c < 1114112) := hsv
  rcases Nat.lt_or_ge c 128 with h1 | h1
  · rw [utf8EncodeChar, if_pos h1, List.cons_append, List.nil_append]
    simp only [utf8DecodeChar1]
    rw [if_pos h1]
  rcases Nat.lt_or_ge c 2048 with h2 | h2
  · rw [utf8EncodeChar, if_neg (by omega), if_pos h2]
    simp only [List.cons_append, List.nil_append, utf8DecodeChar1]
    rw [if_neg (by omega), if_neg (by omega), if_pos (by omega),
      if_pos ⟨by omega, by omega⟩]
    have he : (192 + c / 64 - 192) * 64 + (128 + c % 64 - 128) = c := by omega
    rw [he]
  rcases Nat.lt_or_ge c 65536 with h3 | h3
  · rw [utf8EncodeChar, if_neg (by omega), if_neg (by omega), if_pos h3]
    simp only [List.cons_append, List.nil_append, utf8DecodeChar1]
    rw [if_neg (by omega), if_neg (by omega), if_neg (by omega),
      if_pos (by omega),
      if_pos ⟨by omega, by omega, by omega, by omega⟩]
    have he : (224 + c / 4096 - 224) * 4096 + (128 + c / 64 % 64 - 128) * 64 +
        (128 + c % 64 - 128) = c := by omega
    rw [he, if_neg (by omega)]
  · rw [utf8EncodeChar, if_neg (by omega), if_neg (by omega),
      if_neg (by omega)]
    simp only [List.cons_append, List.nil_append, utf8DecodeChar1]
    rw [if_neg (by omega), if_neg (by omega), if_neg (by omega),
      if_neg (by omega), if_pos (by omega),
      if_pos ⟨by omega, by omega, by omega, by omega, by omega, by omega⟩]
    have he : (240 + c / 262144 - 240) * 262144 +
        (128 + c / 4096 % 64 - 128) * 4096 +
        (128 + c / 64 % 64 - 128) * 64 + (128 + c % 64 - 128) = c := by omega
    rw [he, if_neg (by omega)]

theorem utf8EncodeChar_length_pos (c : Nat) : 1 ≤ (utf8EncodeChar c).length := by
  rw [utf8EncodeChar]
  split_ifs <;> simp

set_option maxRecDepth 4000 in
theorem utf8EncodeChar_decodeChar1 (b : List Nat) (c : Nat) (rest : List Nat)
    (h : utf8DecodeChar1 b = some (c, rest)) :
    utf8EncodeChar c ++ rest = b := by
  cases b with
  | nil => exact Option.noConfusion h
  | cons b0 bs =>
    simp only [utf8DecodeChar1] at h
    repeat' first
      | split at h
      | exact Option.noConfusion h
    all_goals
      simp only [Option.some.injEq, Prod.mk.injEq] at h
    all_goals obtain ⟨rfl, rfl⟩ := h
    · rw [utf8EncodeChar, if_pos (by omega)]
      rfl
    · rw [utf8EncodeChar, if_neg (by omega), if_pos (by omega),
        List.cons_append, List.cons_append, List.nil_append]
      congr 1
      · omega
      congr 1
      omega
    · rw [utf8EncodeChar, if_neg (by omega), if_neg (by omega),
        if_pos (by omega), List.cons_append, List.cons_append,
        List.cons_append, List.nil_append]
      congr 1
      · omega
      congr 1
      · omega
      congr 1
      omega
    · rw [utf8EncodeChar, if_neg (by omega), if_neg (by omega),
        if_neg (by omega), List.cons_append, List.cons_append,
        List.cons_append, List.cons_append, List.nil_append]
      congr 1
      · omega
      congr 1
      · omega
      congr 1
      · omega
      congr 1
      omega

theorem utf8DecodeChar1_length (b : List Nat) (c : Nat) (rest : List Nat)
    (h : utf8DecodeChar1 b = some (c, rest)) : rest.length < b.length := by
  have hb := utf8EncodeChar_decodeChar1 b c rest h
  have hl := utf8EncodeChar_length_pos c
  rw [← hb, List.length_append]
  omega

theorem utf8DecodeAux_encode (s : List Nat) (h : ∀ c ∈ s, ScalarValue c) :
    ∀ fuel : Nat, (utf8Encode s).length ≤ fuel →
    utf8DecodeAux fuel (utf8Encode s) = some s := by
  induction s with
  | nil =>
    intro fuel _
    cases fuel <;> rfl
  | cons c s ih =>
    intro fuel hfuel
    have henc : utf8Encode (c :: s) = utf8EncodeChar c ++ utf8Encode s := by
      rw [utf8Encode, List.map_cons, List.flatten_cons]
      rfl
    have hlen1 := utf8EncodeChar_length_pos c
    rw [henc] at hfuel ⊢
    rw [List.length_append] at hfuel
    cases fuel with
    | zero => omega
    | succ fuel =>
      have hne : ∃ b0 bs, utf8EncodeChar c ++ utf8Encode s = b0 :: bs := by
        cases hl : utf8EncodeChar c ++ utf8Encode s with
        | nil =>
          have hlen0 : (utf8EncodeChar c ++ utf8Encode s).length = 0 := by
            rw [hl]
            rfl
          rw [List.length_append] at hlen0
          omega
        | cons b0 bs => exact ⟨b0, bs, rfl⟩
      obtain ⟨b0, bs, hb⟩ := hne
      rw [hb]
      simp only [utf8DecodeAux]
      rw [← hb, utf8DecodeChar1_encodeChar c (h c (List.mem_cons_self _ _))]
      show (utf8DecodeAux fuel (utf8Encode s)).map (c :: ·) = some (c :: s)
      rw [ih (fun c' hc => h c' (List.mem_cons_of_mem _ hc)) fuel (by omega)]
      rfl

theorem utf8Decode_encode (s : List Nat) (h : ∀ c ∈ s, ScalarValue c) :
    utf8Decode (utf8Encode s) = some s :=
  utf8DecodeAux_encode s h (utf8Encode s).length (le_refl _)

theorem utf8Encode_decodeAux : ∀ (fuel : Nat) (b : List Nat) (cs : List Nat),
    utf8DecodeAux fuel b = some cs → utf8Encode cs = b := by
  intro fuel
  induction fuel with
  | zero =>
    intro b cs h
    cases b with
    | nil =>
      simp only [utf8DecodeAux, Option.some.injEq] at h
      subst h
      rfl
    | cons b0 bs => exact Option.noConfusion h
  | succ fuel ih =>
    intro b cs h
    cases b with
    | nil =>
      simp only [utf8DecodeAux, Option.some.injEq] at h
      subst h
      rfl
    | cons b0 bs =>
      cases hc : utf8DecodeChar1 (b0 :: bs) with
      | none =>
        simp only [utf8DecodeAux, hc] at h
        exact Option.noConfusion h
      | some cr =>
        obtain ⟨c, rest⟩ := cr
        simp only [utf8DecodeAux, hc] at h
        obtain ⟨cs', hrest, rfl⟩ := Option.map_eq_some'.mp h
        have hcons : utf8Encode (c :: cs') = utf8EncodeChar c ++ utf8Encode cs' := by
          rw [utf8Encode, List.map_cons, List.flatten_cons]
          rfl
        rw [hcons, ih rest cs' hrest]
        exact utf8EncodeChar_decodeChar1 _ c rest hc

theorem utf8Encode_decode (b : List Nat) (cs : List Nat)
    (h : utf8Decode b = some cs) : utf8Encode cs = b :=
  utf8Encode_decodeAux b.length b cs h

/-- C4 (amended): `put_file` followed by `get_file` on the same path
round-trips exactly for text payloads (any sequence of Unicode scalar
values) and for binary payloads that are valid UTF-8, whose decoding
determines the stored bytes exactly; binary payloads that are not valid
UTF-8 are stored but `get_file` fails decoding them (see the
counterexample). -/
theorem put_get_file_roundtrip :
    (∀ (fs : List (String × List Nat)) (path : String) (s : List Nat),
      (∀ c ∈ s, ScalarValue c) →
      getFile (putFile fs path (FileContents.text s)) path = some (some s)) ∧
    ∀ (fs : List (String × List Nat)) (path : String) (b cs : List Nat),
      utf8Decode b = some cs →
      getFile (putFile fs path (FileContents.binary b)) path =
        some (some cs) ∧
      utf8Encode cs = b := by
  constructor
  · intro fs path s hs
    rw [getFile, putFile, dlookup_dictInsert_self]
    rw [show putFileBytes (FileContents.text s) = utf8Encode s from rfl]
    rw [show (some (utf8Encode s)).map utf8Decode =
      some (utf8Decode (utf8Encode s)) from rfl]
    rw [utf8Decode_encode s hs]
  · intro fs path b cs hb
    refine ⟨?_, utf8Encode_decode b cs hb⟩
    rw [getFile, putFile, dlookup_dictInsert_self]
    rw [show putFileBytes (FileContents.binary b) = b from rfl]
    rw [show (some b).map utf8Decode = some (utf8Decode b) from rfl, hb]

/-- Witness for C4: a two-character ASCII text payload and a two-byte
valid-UTF-8 binary payload both round-trip on a concrete filesystem. -/
theorem put_get_file_roundtrip_witness :
    getFile (putFile [] "/etc/hosts" (FileContents.text [104, 105]))
      "/etc/hosts" = some (some [104, 105]) ∧
    (getFile (putFile [] "/data/blob" (FileContents.binary [104, 105]))
        "/data/blob" = some (some [104, 105]) ∧
      utf8Encode [104, 105] = [104, 105]) :=
  ⟨put_get_file_roundtrip.1 [] "/etc/hosts" [104, 105] (by decide),
   put_get_file_roundtrip.2 [] "/data/blob" [104, 105] [104, 105] (by decide)⟩

/-- C4 counterexample to the claim as stated: `put_file` of the single
byte `0xFF` (not valid UTF-8) followed by `get_file` on the same path
does not return the byte content — Python's `bytes.decode` raises
`UnicodeDecodeError` (modelled as the inner `none`). -/
theorem put_get_file_binary_counterexample :
    getFile (putFile [] "/data/blob" (FileContents.binary [255]))
      "/data/blob" = some none ∧
    utf8Decode [255] = none :=
  ⟨rfl, rfl⟩

end Clusterdock
